import Mathlib

/-!
Verification of the mongoose-reference-check plugin.

The repository ships two near-duplicate implementations of the plugin:
the TypeScript one (`src/src/index.ts`, namespace `TS` below) and the
legacy JavaScript one (`src/index.js`, namespace `JS` below).  Document
identifiers (Mongo ObjectIds) are modelled as strings; a collection is a
list of documents, each carrying its `_id` and its field values.
-/

/-- A document identifier (ObjectId), modelled by its string form. -/
abbrev OID := String

/-- A reference value as read from a document or payload: absent
(`null`/`undefined`), a single identifier, or an array of identifiers. -/
inductive RefValue where
  | none : RefValue
  | scalar (id : OID) : RefValue
  | array (ids : List OID) : RefValue
deriving DecidableEq, Repr

/-- A field of a nested (array-element) schema: its name and its optional
`ref` annotation (`subPath.options.ref`). -/
structure SubPath where
  name : String
  ref : Option String
deriving DecidableEq, Repr

/-- A top-level schema path: its name, its optional `ref` annotation
(`path.options.ref`), and — when the path is an array whose element type is
a structured schema (`path instanceof Schema.Types.Array && path.schema`) —
the nested schema's paths. -/
structure SchemaPath where
  name : String
  ref : Option String
  arraySchema : Option (List SubPath)
deriving DecidableEq, Repr

/-- A schema descriptor: the list of its paths, in declaration order. -/
abbrev SchemaDesc := List SchemaPath

/-- `RefField` from `src/src/types`: `{ field, refTo }`. -/
structure RefField where
  field : String
  refTo : String
deriving DecidableEq, Repr

/-- `ValidationResult` from `src/src/types`: `{ field, refTo, value, isValid }`. -/
structure ValidationResult where
  field : String
  refTo : String
  value : RefValue
  isValid : Bool
deriving DecidableEq, Repr

/-- `RefModel` from `src/src/types`: `{ modelName, fields }`. -/
structure RefModel where
  modelName : String
  fields : List String
deriving DecidableEq, Repr

/-- A stored document: its `_id` and its field values. -/
structure Doc where
  id : OID
  fields : List (String × RefValue)
deriving DecidableEq, Repr

/-- A registered model: its name, its schema, its documents, and — to model
the underlying driver erroring — an optional failure message that every
lookup against this collection raises (`Option.none` = healthy). -/
structure ModelDecl where
  name : String
  schema : SchemaDesc
  docs : List Doc
  fail : Option String
deriving DecidableEq, Repr

/-- The connection's model registry (`this.model.db`), in registration
order (`modelNames()` enumerates it in this order). -/
abbrev Registry := List ModelDecl

/-- `db.model(name)` / `this.model(name)`: resolve a model by name. -/
def resolveModel (db : Registry) (name : String) : Option ModelDecl :=
  db.find? (fun m => m.name == name)

/-- The `_id`s present in a model's collection. -/
def docIds (m : ModelDecl) : List OID :=
  m.docs.map (fun d => d.id)

/-- `countDocuments({ _id: { $in: idset } })`: how many stored documents
have their `_id` in the given set. -/
def countDocumentsIn (collIds : List OID) (idset : List OID) : Nat :=
  (collIds.filter (fun d => idset.contains d)).length

/-- `[...new Set(xs)]` in JavaScript: deduplicate keeping the first
occurrence of each element, in insertion order. -/
def jsSetDedup (l : List OID) : List OID :=
  l.foldl (fun acc x => if acc.contains x then acc else acc ++ [x]) []

/-- The error message wrapped around an underlying lookup failure:
`Database error validating ${fieldName}: ${error.message}`. -/
def dbWrap (fieldName msg : String) : String :=
  "Database error validating " ++ fieldName ++ ": " ++ msg

/-- String interpolation `${value}` of a reference value: an ObjectId
prints as its hex string, an array joins its elements with commas. -/
def refValueToString (v : RefValue) : String :=
  match v with
  | RefValue.none => "null"
  | RefValue.scalar i => i
  | RefValue.array is => String.intercalate "," is

/-- An I/O event issued against the store, for tracing which lookups a
hook performs. -/
inductive IOEvent where
  | existsById (model : String) (id : OID)
  | countByIdSet (model : String) (ids : List OID)
  | findOneQuery (model : String)
  | existsScan (model : String) (fields : List String) (target : OID)
deriving DecidableEq, Repr

namespace TS

/-- `getRefFields` from `src/src/index.ts` (lines 31-60): one entry per
directly-annotated path, plus — for an array path with a nested schema —
one entry per nested annotated sub-path, under the outer path's name. -/
def getRefFields (schema : SchemaDesc) : List RefField :=
  schema.flatMap (fun path =>
    (match path.ref with
     | Option.some r => [⟨path.name, r⟩]
     | Option.none => []) ++
    (match path.arraySchema with
     | Option.some subs =>
         subs.flatMap (fun sp =>
           match sp.ref with
           | Option.some r => [⟨path.name, r⟩]
           | Option.none => [])
     | Option.none => []))

/-- `validateReference` from `src/src/index.ts` (lines 63-91), with its
I/O trace.  Absent values and empty arrays are trivially valid; a
non-empty array is deduplicated and valid iff `countDocuments` over the
unique ids equals their number; a scalar is valid iff `exists` finds it.
A failing lookup is wrapped into a database error naming the field. -/
def validateReference (m : ModelDecl) (value : RefValue) (fieldName : String) :
    Except String Bool × List IOEvent :=
  match value with
  | RefValue.none => (Except.ok true, [])
  | RefValue.array ids =>
      if ids.isEmpty then (Except.ok true, [])
      else
        let uniqueValues := jsSetDedup ids
        match m.fail with
        | Option.some msg =>
            (Except.error (dbWrap fieldName msg), [IOEvent.countByIdSet m.name uniqueValues])
        | Option.none =>
            (Except.ok (decide (countDocumentsIn (docIds m) uniqueValues = uniqueValues.length)),
             [IOEvent.countByIdSet m.name uniqueValues])
  | RefValue.scalar id =>
      match m.fail with
      | Option.some msg =>
          (Except.error (dbWrap fieldName msg), [IOEvent.existsById m.name id])
      | Option.none =>
          (Except.ok ((docIds m).contains id), [IOEvent.existsById m.name id])

end TS

namespace JS

/-- `getRefFields` from `src/index.js` (lines 18-29): one entry per
directly-annotated path only — no recursion into array-element schemas. -/
def getRefFields (schema : SchemaDesc) : List RefField :=
  schema.flatMap (fun path =>
    match path.ref with
    | Option.some r => [⟨path.name, r⟩]
    | Option.none => [])

/-- `validateReference` from `src/index.js` (lines 32-54), with its I/O
trace.  Unlike the TypeScript version, a non-empty array is checked with
`model.exists({ _id: { $in: uniqueValues } })`, whose result is truthy as
soon as at least one of the unique ids exists. -/
def validateReference (m : ModelDecl) (value : RefValue) (fieldName : String) :
    Except String Bool × List IOEvent :=
  match value with
  | RefValue.none => (Except.ok true, [])
  | RefValue.array ids =>
      if ids.isEmpty then (Except.ok true, [])
      else
        let uniqueValues := jsSetDedup ids
        match m.fail with
        | Option.some msg =>
            (Except.error (dbWrap fieldName msg), [IOEvent.countByIdSet m.name uniqueValues])
        | Option.none =>
            (Except.ok ((docIds m).any (fun d => uniqueValues.contains d)),
             [IOEvent.countByIdSet m.name uniqueValues])
  | RefValue.scalar id =>
      match m.fail with
      | Option.some msg =>
          (Except.error (dbWrap fieldName msg), [IOEvent.existsById m.name id])
      | Option.none =>
          (Except.ok ((docIds m).contains id), [IOEvent.existsById m.name id])

end JS

/-- Look a field's value up in a document or plain data object
(`this.get(field)` / `data[field]`): an absent key reads as
`undefined`, i.e. `RefValue.none`. -/
def getField (doc : List (String × RefValue)) (f : String) : RefValue :=
  match doc.find? (fun kv => kv.fst == f) with
  | Option.some kv => kv.snd
  | Option.none => RefValue.none

/-- A value stored at a top-level key of an update payload: either a
reference value assigned directly, or a nested object (such as the
document under an update-operator key like `$set`). -/
inductive PayloadValue where
  | ref (v : RefValue) : PayloadValue
  | subdoc (fields : List (String × RefValue)) : PayloadValue
deriving DecidableEq, Repr

/-- `payload[field]`: read a top-level key of the update payload. -/
def lookupPayload (payload : List (String × PayloadValue)) (f : String) :
    Option PayloadValue :=
  (payload.find? (fun kv => kv.fst == f)).map Prod.snd

/-- The loop body of the save pre-hook (`src/src/index.ts` lines 109-125):
walk the reference fields in order, skip absent values, resolve the target
model and validate; the first invalid field aborts with the
`Reference validation failed` message, a database error propagates. -/
def saveLoop (db : Registry) (doc : List (String × RefValue)) :
    List RefField → Except String Unit × List IOEvent
  | [] => (Except.ok (), [])
  | fieldObj :: rest =>
      let value := getField doc fieldObj.field
      if value = RefValue.none then saveLoop db doc rest
      else
        match resolveModel db fieldObj.refTo with
        | Option.none =>
            (Except.error ("MissingSchemaError: " ++ fieldObj.refTo), [])
        | Option.some m =>
            match TS.validateReference m value fieldObj.field with
            | (Except.error e, evs) => (Except.error e, evs)
            | (Except.ok isValid, evs) =>
                if isValid then
                  match saveLoop db doc rest with
                  | (r, evs2) => (r, evs ++ evs2)
                else
                  (Except.error ("Reference validation failed: The value "
                      ++ refValueToString value ++ " does not exist within "
                      ++ fieldObj.refTo), evs)

/-- The save pre-hook (`src/src/index.ts` lines 101-133): validate every
reference field of the document being saved, failing fast. -/
def saveHook (db : Registry) (schema : SchemaDesc)
    (doc : List (String × RefValue)) : Except String Unit × List IOEvent :=
  saveLoop db doc (TS.getRefFields schema)

/-- The loop body of the update pre-hook (`src/src/index.ts` lines
153-168): for each reference field, read the payload's *top-level* key of
that name; an absent or falsy value is skipped.  A nested-object value
would be passed to a single-value existence check and fail to cast,
surfacing as a wrapped database error without touching the store. -/
def updateLoop (db : Registry) (payload : List (String × PayloadValue)) :
    List RefField → Except String Unit × List IOEvent
  | [] => (Except.ok (), [])
  | fieldObj :: rest =>
      match lookupPayload payload fieldObj.field with
      | Option.none => updateLoop db payload rest
      | Option.some (PayloadValue.ref RefValue.none) => updateLoop db payload rest
      | Option.some (PayloadValue.subdoc _) =>
          match resolveModel db fieldObj.refTo with
          | Option.none =>
              (Except.error ("MissingSchemaError: " ++ fieldObj.refTo), [])
          | Option.some _ =>
              (Except.error (dbWrap fieldObj.field "Cast to ObjectId failed"), [])
      | Option.some (PayloadValue.ref value) =>
          match resolveModel db fieldObj.refTo with
          | Option.none =>
              (Except.error ("MissingSchemaError: " ++ fieldObj.refTo), [])
          | Option.some m =>
              match TS.validateReference m value fieldObj.field with
              | (Except.error e, evs) => (Except.error e, evs)
              | (Except.ok isValid, evs) =>
                  if isValid then
                    match updateLoop db payload rest with
                    | (r, evs2) => (r, evs ++ evs2)
                  else
                    (Except.error ("Reference validation failed: The value "
                        ++ refValueToString value ++ " does not exist within "
                        ++ fieldObj.refTo), evs)

/-- The update pre-hook (`src/src/index.ts` lines 143-176), installed for
`findOneAndUpdate`, `updateOne` and `updateMany`: validate the reference
fields present as top-level keys of the update payload. -/
def updateHook (db : Registry) (schema : SchemaDesc)
    (payload : List (String × PayloadValue)) : Except String Unit × List IOEvent :=
  updateLoop db payload (TS.getRefFields schema)

/-- The inner loop of the delete hook's discovery (`src/src/index.ts`
lines 211-216): the names of the schema's paths whose *direct* `ref`
annotation equals the model being deleted. -/
def refFieldsTargeting (schema : SchemaDesc) (target : String) : List String :=
  schema.flatMap (fun path =>
    if path.ref == Option.some target then [path.name] else [])

/-- The discovery loop of the delete pre-hook (`src/src/index.ts` lines
202-224): every registered model other than the one being deleted that has
at least one directly-annotated path targeting it. -/
def discoverRefModels (db : Registry) (deletingName : String) : List RefModel :=
  db.flatMap (fun m =>
    if m.name == deletingName then []
    else
      let fs := refFieldsTargeting m.schema deletingName
      if fs.isEmpty then [] else [⟨m.name, fs⟩])

/-- Mongo equality match `{ field: target }` against a stored document:
a scalar field matches by equality, an array field matches when it
contains the target. -/
def docFieldMatches (d : Doc) (f : String) (target : OID) : Bool :=
  match getField d.fields f with
  | RefValue.scalar i => i == target
  | RefValue.array is => is.contains target
  | RefValue.none => false

/-- The existence-scan loop of the delete pre-hook (`src/src/index.ts`
lines 232-254): for each referencing model, run the `$match`/`$or` +
`$limit 1` aggregation; the first living reference aborts the delete. -/
def scanLoop (db : Registry) (deletedId : OID) :
    List RefModel → Except String Unit × List IOEvent
  | [] => (Except.ok (), [])
  | refModel :: rest =>
      match resolveModel db refModel.modelName with
      | Option.none =>
          (Except.error ("MissingSchemaError: " ++ refModel.modelName), [])
      | Option.some m =>
          match m.fail with
          | Option.some msg =>
              (Except.error msg,
               [IOEvent.existsScan refModel.modelName refModel.fields deletedId])
          | Option.none =>
              if m.docs.any (fun d =>
                  refModel.fields.any (fun f => docFieldMatches d f deletedId)) then
                (Except.error ("Cannot delete record " ++ deletedId
                    ++ ": It is referenced in " ++ refModel.modelName ++ " model"),
                 [IOEvent.existsScan refModel.modelName refModel.fields deletedId])
              else
                match scanLoop db deletedId rest with
                | (r, evs) =>
                    (r, IOEvent.existsScan refModel.modelName refModel.fields deletedId :: evs)

/-- The delete pre-hook (`src/src/index.ts` lines 187-261), installed for
`deleteOne`, `findOneAndDelete` and `deleteMany`: resolve the *first*
document matching the query with `findOne`; when none matches the delete
proceeds; otherwise discover the referencing models and scan them for a
living reference to that single document's id. -/
def deleteHook (db : Registry) (deleting : ModelDecl) (query : OID → Bool) :
    Except String Unit × List IOEvent :=
  match deleting.fail with
  | Option.some msg => (Except.error msg, [IOEvent.findOneQuery deleting.name])
  | Option.none =>
      match deleting.docs.find? (fun d => query d.id) with
      | Option.none => (Except.ok (), [IOEvent.findOneQuery deleting.name])
      | Option.some deletingItem =>
          let refModels := discoverRefModels db deleting.name
          if refModels.isEmpty then
            (Except.ok (), [IOEvent.findOneQuery deleting.name])
          else
            match scanLoop db deletingItem.id refModels with
            | (r, evs) => (r, IOEvent.findOneQuery deleting.name :: evs)

/-- The loop body of the static `validateReferences` (`src/src/index.ts`
lines 272-289): one ValidationResult per reference field whose value in
the supplied data is present; absent values are skipped; a database error
propagates. -/
def vrLoop (db : Registry) (data : List (String × RefValue)) :
    List RefField → Except String (List ValidationResult)
  | [] => Except.ok []
  | fieldObj :: rest =>
      let value := getField data fieldObj.field
      if value = RefValue.none then vrLoop db data rest
      else
        match resolveModel db fieldObj.refTo with
        | Option.none => Except.error ("MissingSchemaError: " ++ fieldObj.refTo)
        | Option.some m =>
            match (TS.validateReference m value fieldObj.field).fst with
            | Except.error e => Except.error e
            | Except.ok isValid =>
                match vrLoop db data rest with
                | Except.error e => Except.error e
                | Except.ok results =>
                    Except.ok (⟨fieldObj.field, fieldObj.refTo, value, isValid⟩ :: results)

/-- The static `validateReferences(data)` (`src/src/index.ts` lines
265-292). -/
def validateReferences (db : Registry) (schema : SchemaDesc)
    (data : List (String × RefValue)) : Except String (List ValidationResult) :=
  vrLoop db data (TS.getRefFields schema)

/-- The loop body of the instance method `checkReferences`
(`src/src/index.ts` lines 301-318): identical to `vrLoop` except the
value is read from the document instance with `this.get`. -/
def crLoop (db : Registry) (doc : List (String × RefValue)) :
    List RefField → Except String (List ValidationResult)
  | [] => Except.ok []
  | fieldObj :: rest =>
      let value := getField doc fieldObj.field
      if value = RefValue.none then crLoop db doc rest
      else
        match resolveModel db fieldObj.refTo with
        | Option.none => Except.error ("MissingSchemaError: " ++ fieldObj.refTo)
        | Option.some m =>
            match (TS.validateReference m value fieldObj.field).fst with
            | Except.error e => Except.error e
            | Except.ok isValid =>
                match crLoop db doc rest with
                | Except.error e => Except.error e
                | Except.ok results =>
                    Except.ok (⟨fieldObj.field, fieldObj.refTo, value, isValid⟩ :: results)

/-- The instance method `checkReferences()` (`src/src/index.ts` lines
295-321). -/
def checkReferences (db : Registry) (schema : SchemaDesc)
    (doc : List (String × RefValue)) : Except String (List ValidationResult) :=
  crLoop db doc (TS.getRefFields schema)

/-- `ReferenceCheckOptions` from `src/src/types`: caller-supplied
overrides, each optional. -/
structure ReferenceCheckOptions where
  enableSave : Option Bool := Option.none
  enableUpdate : Option Bool := Option.none
  enableDelete : Option Bool := Option.none
  enableLogging : Option Bool := Option.none
  batchSize : Option Nat := Option.none
deriving DecidableEq, Repr

/-- The resolved configuration (`Required<ReferenceCheckOptions>`). -/
structure Config where
  enableSave : Bool
  enableUpdate : Bool
  enableDelete : Bool
  enableLogging : Bool
  batchSize : Nat
deriving DecidableEq, Repr

/-- The spread-merge of the documented defaults with the caller's
overrides (`src/src/index.ts` lines 21-28). -/
def mergeOptions (o : ReferenceCheckOptions) : Config :=
  ⟨o.enableSave.getD true, o.enableUpdate.getD true, o.enableDelete.getD true,
   o.enableLogging.getD false, o.batchSize.getD 100⟩

/-- The middleware registration points of the plugin. -/
inductive HookKind where
  | save
  | findOneAndUpdate
  | updateOne
  | updateMany
  | deleteOne
  | findOneAndDelete
  | deleteMany
deriving DecidableEq, Repr

/-- Which `schema.pre` registrations `ReferenceCheck` performs: each
family is installed only when its configuration flag is enabled
(`src/src/index.ts` lines 101, 136, 180). -/
def installedHooks (c : Config) : List HookKind :=
  (if c.enableSave then [HookKind.save] else []) ++
  (if c.enableUpdate then
    [HookKind.findOneAndUpdate, HookKind.updateOne, HookKind.updateMany] else []) ++
  (if c.enableDelete then
    [HookKind.deleteOne, HookKind.findOneAndDelete, HookKind.deleteMany] else [])

/-- A save operation run through the middleware pipeline: the pre-hook
runs exactly when it was installed; otherwise the operation proceeds with
no validation and no I/O. -/
def runSave (c : Config) (db : Registry) (schema : SchemaDesc)
    (doc : List (String × RefValue)) : Except String Unit × List IOEvent :=
  if HookKind.save ∈ installedHooks c then saveHook db schema doc
  else (Except.ok (), [])

/-- An update operation run through the middleware pipeline. -/
def runUpdate (c : Config) (db : Registry) (schema : SchemaDesc)
    (payload : List (String × PayloadValue)) : Except String Unit × List IOEvent :=
  if HookKind.updateOne ∈ installedHooks c then updateHook db schema payload
  else (Except.ok (), [])

/-- A delete operation run through the middleware pipeline. -/
def runDelete (c : Config) (db : Registry) (deleting : ModelDecl)
    (query : OID → Bool) : Except String Unit × List IOEvent :=
  if HookKind.deleteOne ∈ installedHooks c then deleteHook db deleting query
  else (Except.ok (), [])

/-- `isPrefixChars p s`: is `p` a prefix of `s`? -/
def isPrefixChars : List Char → List Char → Bool
  | [], _ => true
  | _ :: _, [] => false
  | p :: ps, c :: cs => p == c && isPrefixChars ps cs

/-- `containsChars pat s`: does `pat` occur as a contiguous run in `s`? -/
def containsChars (pat : List Char) : List Char → Bool
  | [] => isPrefixChars pat []
  | c :: cs => isPrefixChars pat (c :: cs) || containsChars pat cs

/-- Does the string `s` contain `pat` as a substring? -/
def strContains (s pat : String) : Bool :=
  containsChars pat.data s.data

/-- The pure validity answer of the TypeScript `validateReference` when
the underlying lookup succeeds: absent and empty-array values are valid,
a non-empty array is valid iff every deduplicated id is counted, a scalar
iff it exists. -/
def refValid (m : ModelDecl) (v : RefValue) : Bool :=
  match v with
  | RefValue.none => true
  | RefValue.array ids =>
      ids.isEmpty ||
        decide (countDocumentsIn (docIds m) (jsSetDedup ids) = (jsSetDedup ids).length)
  | RefValue.scalar i => (docIds m).contains i

/-- The Manual Validation API's result sequence as the spec states it
(section 4.5): one `ValidationResult`, in extraction order, per reference
field whose value is present in the supplied data; fields with absent
values are skipped entirely; a non-resolving reference yields
`isValid = false` rather than an error. -/
def manualResultsSpec (db : Registry) (data : List (String × RefValue))
    (refFields : List RefField) : List ValidationResult :=
  refFields.filterMap (fun fieldObj =>
    let v := getField data fieldObj.field
    if v = RefValue.none then Option.none
    else (resolveModel db fieldObj.refTo).map
      (fun m => ⟨fieldObj.field, fieldObj.refTo, v, refValid m v⟩))

instance {ε α : Type} [DecidableEq ε] [DecidableEq α] : DecidableEq (Except ε α) :=
  fun a b =>
    match a, b with
    | Except.ok x, Except.ok y =>
        match decEq x y with
        | isTrue h => isTrue (by rw [h])
        | isFalse h => isFalse (fun hh => h (by cases hh; rfl))
    | Except.error x, Except.error y =>
        match decEq x y with
        | isTrue h => isTrue (by rw [h])
        | isFalse h => isFalse (fun hh => h (by cases hh; rfl))
    | Except.ok _, Except.error _ => isFalse (fun hh => Except.noConfusion hh)
    | Except.error _, Except.ok _ => isFalse (fun hh => Except.noConfusion hh)

/-! Concrete instances used by the counterexamples and witnesses. -/

/-- A target collection holding exactly the documents A and B. -/
def collAB : ModelDecl :=
  ⟨"Target", [], [⟨"A", []⟩, ⟨"B", []⟩], Option.none⟩

/-- A schema whose only reference is nested inside an array-of-subdocument
path: `comments: [{ user: { ref: "User" } }]`. -/
def schemaNested : SchemaDesc :=
  [⟨"comments", Option.none, Option.some [⟨"user", Option.some "User"⟩]⟩]

/-- A schema with a single direct reference path `author → User`. -/
def schemaAuthor : SchemaDesc :=
  [⟨"author", Option.some "User", Option.none⟩]

/-- A User model with no documents. -/
def userEmpty : ModelDecl :=
  ⟨"User", [⟨"name", Option.none, Option.none⟩], [], Option.none⟩

/-- A registry containing only the empty User model. -/
def dbUserEmpty : Registry := [userEmpty]

/-- A User model holding the single document u1. -/
def userU1 : ModelDecl :=
  ⟨"User", [⟨"name", Option.none, Option.none⟩], [⟨"u1", []⟩], Option.none⟩

/-- A Comments model whose only reference to User is nested inside an
array-of-subdocument path. -/
def commentsModel : ModelDecl :=
  ⟨"Comments", schemaNested, [⟨"c1", [("comments", RefValue.array ["u1"])]⟩], Option.none⟩

/-- A registry where the only reference to User is a nested one. -/
def dbNested : Registry := [userU1, commentsModel]

/-- A User model holding two documents, u1 and u2. -/
def userTwo : ModelDecl :=
  ⟨"User", [⟨"name", Option.none, Option.none⟩], [⟨"u1", []⟩, ⟨"u2", []⟩], Option.none⟩

/-- A Post model with a direct reference `author → User` and one living
post referencing u1. -/
def postModel : ModelDecl :=
  ⟨"Post", schemaAuthor, [⟨"p1", [("author", RefValue.scalar "u1")]⟩], Option.none⟩

/-- A registry with two Users and a Post referencing u1. -/
def dbScan : Registry := [userTwo, postModel]

/-- A document whose `author` field holds the dangling identifier x. -/
def docAuthorX : List (String × RefValue) := [("author", RefValue.scalar "x")]

/-- An update payload whose reference assignment sits only under the
update-operator key `$set`. -/
def payloadSetOnly : List (String × PayloadValue) :=
  [("$set", PayloadValue.subdoc [("author", RefValue.scalar "ghost")])]

/-- Options disabling only the delete hook. -/
def optsNoDelete : ReferenceCheckOptions :=
  ⟨Option.none, Option.none, Option.some false, Option.none, Option.none⟩

/-! Helper lemmas. -/

theorem nestedRefs_nil (subs : List SubPath) (name : String)
    (h : ∀ sp ∈ subs, sp.ref = Option.none) :
    (subs.flatMap (fun sp =>
      match sp.ref with
      | Option.some r => [(⟨name, r⟩ : RefField)]
      | Option.none => [])) = [] := by
  induction subs with
  | nil => rfl
  | cons sp rest ih =>
      have hsp := h sp (by simp)
      rw [List.flatMap_cons, hsp]
      simpa using ih (fun x hx => h x (by simp [hx]))

theorem nestedRefs_length (subs : List SubPath) (name : String) :
    (subs.flatMap (fun sp =>
      match sp.ref with
      | Option.some r => [(⟨name, r⟩ : RefField)]
      | Option.none => [])).length
    = (subs.filter (fun sp => sp.ref.isSome)).length := by
  induction subs with
  | nil => rfl
  | cons sp rest ih =>
      cases hr : sp.ref <;> simp [List.flatMap_cons, hr, List.filter_cons, ih]

theorem mem_directPart {p : SchemaPath} {fld tgt : String} :
    ((⟨fld, tgt⟩ : RefField) ∈ (match p.ref with
      | Option.some r => [(⟨p.name, r⟩ : RefField)]
      | Option.none => ([] : List RefField))) ↔
    (p.name = fld ∧ p.ref = Option.some tgt) := by
  cases hr : p.ref with
  | none => simp
  | some r =>
      simp only [List.mem_singleton, RefField.mk.injEq, Option.some.injEq]
      constructor
      · rintro ⟨h1, h2⟩
        exact ⟨h1.symm, h2.symm⟩
      · rintro ⟨h1, h2⟩
        exact ⟨h1.symm, h2.symm⟩

theorem mem_nestedPart {p : SchemaPath} {fld tgt : String} :
    ((⟨fld, tgt⟩ : RefField) ∈ (match p.arraySchema with
      | Option.some subs =>
          subs.flatMap (fun sp =>
            match sp.ref with
            | Option.some r => [(⟨p.name, r⟩ : RefField)]
            | Option.none => [])
      | Option.none => ([] : List RefField))) ↔
    (p.name = fld ∧ ∃ subs, p.arraySchema = Option.some subs ∧
      ∃ sp ∈ subs, sp.ref = Option.some tgt) := by
  cases ha : p.arraySchema with
  | none => simp
  | some subs =>
      simp only [List.mem_flatMap, Option.some.injEq]
      constructor
      · rintro ⟨sp, hsp, hmem⟩
        cases hr : sp.ref with
        | none => rw [hr] at hmem; simp at hmem
        | some r =>
            rw [hr] at hmem
            simp only [List.mem_singleton, RefField.mk.injEq] at hmem
            exact ⟨hmem.1.symm, subs, rfl, sp, hsp, by rw [hr, hmem.2]⟩
      · rintro ⟨hname, subs', hsubs', sp, hsp, hr⟩
        cases hsubs'
        exact ⟨sp, hsp, by rw [hr]; simp [hname]⟩

/-- C1: for every array reference value, the reference validation as
specified deduplicates the identifiers and answers valid iff the batch
existence count equals the number of unique identifiers.  The TypeScript
implementation does exactly that: at the target collection {A, B} the
value [A, A, B] deduplicates to [A, B] and validates as valid, and the
value [A, C] yields count 1 against 2 unique ids and validates as
invalid.  The JavaScript implementation, on the same failing input
[A, C], answers valid — its `exists` call is truthy as soon as any one
unique identifier exists — contradicting the specified count semantics. -/
theorem C1_array_validation_at_failing_input :
    jsSetDedup ["A", "A", "B"] = ["A", "B"] ∧
    (TS.validateReference collAB (RefValue.array ["A", "A", "B"]) "f").fst = Except.ok true ∧
    jsSetDedup ["A", "C"] = ["A", "C"] ∧
    countDocumentsIn (docIds collAB) ["A", "C"] = 1 ∧
    (jsSetDedup ["A", "C"]).length = 2 ∧
    (TS.validateReference collAB (RefValue.array ["A", "C"]) "f").fst = Except.ok false ∧
    (JS.validateReference collAB (RefValue.array ["A", "C"]) "f").fst = Except.ok true := by
  refine ⟨by decide, rfl, by decide, by decide, by decide, rfl, rfl⟩

/-- C2 counterexample: the JavaScript and TypeScript implementations are
not extensionally equivalent.  On a schema whose only reference is nested
in an array-of-subdocument path their extractions differ, and on the
array value [A, C] against the collection {A, B} their validation
results differ. -/
theorem C2_counterexample :
    TS.getRefFields schemaNested ≠ JS.getRefFields schemaNested ∧
    (TS.validateReference collAB (RefValue.array ["A", "C"]) "f").fst ≠
      (JS.validateReference collAB (RefValue.array ["A", "C"]) "f").fst := by
  refine ⟨by decide, by decide⟩

/-- C2 (amended): the two implementations agree on reference-field
extraction for every schema with no reference field nested inside an
array-of-subdocument path, and their existence validation agrees on
absent values, on scalar values, and on empty arrays — but not in
general (they differ on nested extraction and on non-empty arrays). -/
theorem C2_implementations_agree_amended :
    (∀ s : SchemaDesc,
      (∀ p ∈ s, ∀ subs, p.arraySchema = Option.some subs →
        ∀ sp ∈ subs, sp.ref = Option.none) →
      TS.getRefFields s = JS.getRefFields s) ∧
    (∀ (m : ModelDecl) (f : String),
      TS.validateReference m RefValue.none f = JS.validateReference m RefValue.none f ∧
      (∀ i : OID, TS.validateReference m (RefValue.scalar i) f =
        JS.validateReference m (RefValue.scalar i) f) ∧
      TS.validateReference m (RefValue.array []) f =
        JS.validateReference m (RefValue.array []) f) := by
  constructor
  · intro s hs
    induction s with
    | nil => rfl
    | cons p rest ih =>
        unfold TS.getRefFields JS.getRefFields
        rw [List.flatMap_cons, List.flatMap_cons]
        have hrest : TS.getRefFields rest = JS.getRefFields rest :=
          ih (fun q hq => hs q (by simp [hq]))
        unfold TS.getRefFields JS.getRefFields at hrest
        rw [hrest]
        congr 1
        cases ha : p.arraySchema with
        | none => simp
        | some subs =>
            have := nestedRefs_nil subs p.name (hs p (by simp) subs ha)
            simp [this]
  · intro m f
    refine ⟨rfl, ?_, ?_⟩
    · intro i
      cases hf : m.fail <;> simp [TS.validateReference, JS.validateReference, hf]
    · rfl

/-- C2 amended, witnessed at a flat schema and a concrete scalar value. -/
theorem C2_implementations_agree_amended_witness :
    TS.getRefFields schemaAuthor = JS.getRefFields schemaAuthor ∧
    TS.validateReference collAB (RefValue.scalar "A") "f" =
      JS.validateReference collAB (RefValue.scalar "A") "f" := by
  constructor
  · apply C2_implementations_agree_amended.1 schemaAuthor
    intro p hp subs hsubs
    simp only [schemaAuthor, List.mem_singleton] at hp
    rw [hp] at hsubs
    simp at hsubs
  · exact (C2_implementations_agree_amended.2 collAB "f").2.1 "A"

/-- C3 counterexample: with a catalog where the Comments collection's
only reference to User is nested inside an array-of-subdocument path,
the delete-time reverse-scan discovery keeps no collection at all —
although the Schema Reference Extractor does find that nested reference
field targeting User, so the claim would require Comments to be kept. -/
theorem C3_counterexample :
    discoverRefModels dbNested "User" = [] ∧
    (⟨"comments", "User"⟩ : RefField) ∈ TS.getRefFields commentsModel.schema := by
  refine ⟨by decide, by decide⟩

/-- C3 (amended): for every delete, reverse-scan discovery enumerates
every collection in the catalog except the affected one and keeps exactly
those declaring at least one *directly-annotated* reference field whose
target equals the affected collection's name, together with exactly those
field names; reference fields nested inside array-of-subdocument paths
are not considered by the discovery. -/
theorem C3_discovery_amended :
    (∀ (db : Registry) (del name : String) (fs : List String),
      ((⟨name, fs⟩ : RefModel) ∈ discoverRefModels db del ↔
        ∃ m ∈ db, m.name = name ∧ name ≠ del ∧
          fs = refFieldsTargeting m.schema del ∧ fs ≠ [])) ∧
    (∀ (s : SchemaDesc) (t f : String),
      (f ∈ refFieldsTargeting s t ↔ ∃ p ∈ s, p.name = f ∧ p.ref = Option.some t)) := by
  constructor
  · intro db del name fs
    unfold discoverRefModels
    rw [List.mem_flatMap]
    constructor
    · rintro ⟨m, hm, hmem⟩
      by_cases hd : m.name == del
      · rw [if_pos hd] at hmem
        simp at hmem
      · rw [if_neg hd] at hmem
        by_cases he : (refFieldsTargeting m.schema del).isEmpty
        · rw [if_pos he] at hmem
          simp at hmem
        · rw [if_neg he] at hmem
          simp only [List.mem_singleton, RefModel.mk.injEq] at hmem
          refine ⟨m, hm, hmem.1.symm, ?_, hmem.2, ?_⟩
          · rw [hmem.1]
            simpa using hd
          · rw [hmem.2]
            simpa [List.isEmpty_iff] using he
    · rintro ⟨m, hm, hname, hne, hfs, hfsne⟩
      refine ⟨m, hm, ?_⟩
      have hd : (m.name == del) = false := by
        rw [hname]
        simpa using hne
      rw [if_neg (by simp [hd])]
      have he : (refFieldsTargeting m.schema del).isEmpty = false := by
        rw [← hfs]
        simpa [List.isEmpty_iff] using hfsne
      rw [if_neg (by simp [he])]
      simp [hname, hfs]
  · intro s t f
    unfold refFieldsTargeting
    rw [List.mem_flatMap]
    constructor
    · rintro ⟨p, hp, hmem⟩
      by_cases hr : p.ref == Option.some t
      · rw [if_pos hr] at hmem
        simp only [List.mem_singleton] at hmem
        exact ⟨p, hp, hmem.symm, by simpa using hr⟩
      · rw [if_neg hr] at hmem
        simp at hmem
    · rintro ⟨p, hp, hname, hr⟩
      refine ⟨p, hp, ?_⟩
      rw [if_pos (by simp [hr])]
      simp [hname]

/-- C4 counterexample: on a schema whose only reference field is nested
inside an array-of-subdocument path, the JavaScript extractor emits
nothing, although the claim requires one ReferenceField per nested
reference field (as the TypeScript extractor indeed emits, under the
outer field name). -/
theorem C4_counterexample :
    JS.getRefFields schemaNested = [] ∧
    TS.getRefFields schemaNested = [⟨"comments", "User"⟩] := by
  refine ⟨by decide, by decide⟩

/-- C4 (amended): the TypeScript extractor emits one ReferenceField per
directly-annotated field and additionally, for every array-typed field
whose element type is a structured schema, one per nested reference field
using the outer field's name; the JavaScript extractor emits only the
directly-annotated ones; a schema with no reference fields yields the
empty sequence from both. -/
theorem C4_extractor_amended :
    (∀ (s : SchemaDesc) (fld tgt : String),
      ((⟨fld, tgt⟩ : RefField) ∈ TS.getRefFields s ↔
        (∃ p ∈ s, p.name = fld ∧ p.ref = Option.some tgt) ∨
        (∃ p ∈ s, p.name = fld ∧ ∃ subs, p.arraySchema = Option.some subs ∧
          ∃ sp ∈ subs, sp.ref = Option.some tgt))) ∧
    (∀ (s : SchemaDesc) (fld tgt : String),
      ((⟨fld, tgt⟩ : RefField) ∈ JS.getRefFields s ↔
        ∃ p ∈ s, p.name = fld ∧ p.ref = Option.some tgt)) ∧
    (∀ s : SchemaDesc, (TS.getRefFields s).length =
      (s.map (fun p => (if p.ref.isSome then 1 else 0) +
        (match p.arraySchema with
         | Option.some subs => (subs.filter (fun sp => sp.ref.isSome)).length
         | Option.none => 0))).sum) ∧
    (∀ s : SchemaDesc,
      (∀ p ∈ s, p.ref = Option.none ∧
        ∀ subs, p.arraySchema = Option.some subs → ∀ sp ∈ subs, sp.ref = Option.none) →
      TS.getRefFields s = [] ∧ JS.getRefFields s = []) := by
  refine ⟨?_, ?_, ?_, ?_⟩
  · intro s fld tgt
    unfold TS.getRefFields
    rw [List.mem_flatMap]
    constructor
    · rintro ⟨p, hp, hmem⟩
      rw [List.mem_append] at hmem
      rcases hmem with hmem | hmem
      · exact Or.inl ⟨p, hp, mem_directPart.mp hmem⟩
      · exact Or.inr ⟨p, hp, mem_nestedPart.mp hmem⟩
    · rintro (⟨p, hp, hh⟩ | ⟨p, hp, hh⟩)
      · exact ⟨p, hp, List.mem_append.mpr (Or.inl (mem_directPart.mpr hh))⟩
      · exact ⟨p, hp, List.mem_append.mpr (Or.inr (mem_nestedPart.mpr hh))⟩
  · intro s fld tgt
    unfold JS.getRefFields
    rw [List.mem_flatMap]
    constructor
    · rintro ⟨p, hp, hmem⟩
      exact ⟨p, hp, mem_directPart.mp hmem⟩
    · rintro ⟨p, hp, hh⟩
      exact ⟨p, hp, mem_directPart.mpr hh⟩
  · intro s
    induction s with
    | nil => rfl
    | cons p rest ih =>
        unfold TS.getRefFields
        unfold TS.getRefFields at ih
        rw [List.flatMap_cons, List.map_cons, List.sum_cons, List.length_append,
          List.length_append, ih]
        have h2 : (match p.arraySchema with
            | Option.some subs =>
                subs.flatMap (fun sp =>
                  match sp.ref with
                  | Option.some r => [(⟨p.name, r⟩ : RefField)]
                  | Option.none => [])
            | Option.none => ([] : List RefField)).length =
            (match p.arraySchema with
             | Option.some subs => (subs.filter (fun sp => sp.ref.isSome)).length
             | Option.none => 0) := by
          cases ha : p.arraySchema with
          | none => rfl
          | some subs => exact nestedRefs_length subs p.name
        rw [h2]
        cases hr : p.ref <;> simp [hr]
  · intro s hs
    constructor
    · unfold TS.getRefFields
      rw [List.flatMap_eq_nil_iff]
      intro p hp
      rw [(hs p hp).1]
      cases ha : p.arraySchema with
      | none => rfl
      | some subs =>
          have hnil := nestedRefs_nil subs p.name ((hs p hp).2 subs ha)
          simp [hnil]
    · unfold JS.getRefFields
      rw [List.flatMap_eq_nil_iff]
      intro p hp
      rw [(hs p hp).1]

/-- C4 amended, witnessed on a no-reference schema. -/
theorem C4_extractor_amended_witness :
    TS.getRefFields [⟨"title", Option.none, Option.none⟩] = [] ∧
    JS.getRefFields [⟨"title", Option.none, Option.none⟩] = [] := by
  apply C4_extractor_amended.2.2.2
  intro p hp
  simp only [List.mem_singleton] at hp
  rw [hp]
  exact ⟨rfl, by intro subs hsubs; simp at hsubs⟩

theorem find?_eq_head_filter {α} (p : α → Bool) (l : List α) :
    l.find? p = (l.filter p).head? := by
  induction l with
  | nil => rfl
  | cons a rest ih =>
      cases hp : p a
      · rw [List.find?_cons_of_neg _ (by simp [hp]), List.filter_cons, if_neg (by simp [hp]), ih]
      · rw [List.find?_cons_of_pos _ hp, List.filter_cons, if_pos hp, List.head?_cons]

theorem scanLoop_events (db : Registry) (tid : OID) (rms : List RefModel) :
    ∀ ev ∈ (scanLoop db tid rms).snd, ∃ mn fs, ev = IOEvent.existsScan mn fs tid := by
  induction rms with
  | nil => simp [scanLoop]
  | cons rm rest ih =>
      intro ev hev
      unfold scanLoop at hev
      split at hev
      · simp at hev
      · split at hev
        · simp only [List.mem_singleton] at hev
          exact ⟨rm.modelName, rm.fields, hev⟩
        · split at hev
          · simp only [List.mem_singleton] at hev
            exact ⟨rm.modelName, rm.fields, hev⟩
          · split at hev
            next r evs hsl =>
              simp only [List.mem_cons] at hev
              rcases hev with hev | hev
              · exact ⟨rm.modelName, rm.fields, hev⟩
              · exact ih ev (by rw [hsl]; exact hev)

/-- C5: for every delete whose query matches more than one document, the
reverse-reference scan runs only against the identifier of the single
first-resolved matching document: every existence scan issued by the
delete hook targets that identifier, and the identifiers of the remaining
matched documents are never scanned. -/
theorem C5_scan_targets_first_match_only :
    ∀ (db : Registry) (deleting : ModelDecl) (query : OID → Bool) (d0 : Doc),
      deleting.fail = Option.none →
      (deleting.docs.filter (fun d => query d.id)).head? = Option.some d0 →
      1 < (deleting.docs.filter (fun d => query d.id)).length →
      (∀ ev ∈ (deleteHook db deleting query).snd,
        ev = IOEvent.findOneQuery deleting.name ∨
        ∃ mn fs, ev = IOEvent.existsScan mn fs d0.id) ∧
      (∀ d' ∈ deleting.docs, query d'.id = true → d'.id ≠ d0.id →
        ∀ mn fs, IOEvent.existsScan mn fs d'.id ∉ (deleteHook db deleting query).snd) := by
  intro db deleting query d0 hfail hhead _hlen
  have hfind : deleting.docs.find? (fun d => query d.id) = Option.some d0 := by
    rw [find?_eq_head_filter]; exact hhead
  have hmain : ∀ ev ∈ (deleteHook db deleting query).snd,
      ev = IOEvent.findOneQuery deleting.name ∨
      ∃ mn fs, ev = IOEvent.existsScan mn fs d0.id := by
    intro ev hev
    unfold deleteHook at hev
    simp only [hfail, hfind] at hev
    split at hev
    · simp only [List.mem_singleton] at hev
      exact Or.inl hev
    · simp only [List.mem_cons] at hev
      rcases hev with hev | hev
      · exact Or.inl hev
      · rcases scanLoop_events db d0.id (discoverRefModels db deleting.name) ev hev
          with ⟨mn, fs, hevv⟩
        exact Or.inr ⟨mn, fs, hevv⟩
  refine ⟨hmain, ?_⟩
  intro d' _hd' _hq hne mn fs hmem
  rcases hmain _ hmem with h | ⟨mn', fs', h⟩
  · exact IOEvent.noConfusion h
  · injection h with h1 h2 h3
    exact hne h3

/-- C5 witness: a registry with two matching User documents and a Post
referencing u1; every scan of the delete hook targets u1 only. -/
theorem C5_scan_targets_first_match_only_witness :
    (∀ ev ∈ (deleteHook dbScan userTwo (fun _ => true)).snd,
      ev = IOEvent.findOneQuery userTwo.name ∨
      ∃ mn fs, ev = IOEvent.existsScan mn fs (Doc.mk "u1" []).id) ∧
    (∀ d' ∈ userTwo.docs, (fun _ => true) d'.id = true → d'.id ≠ (Doc.mk "u1" []).id →
      ∀ mn fs, IOEvent.existsScan mn fs d'.id ∉ (deleteHook dbScan userTwo (fun _ => true)).snd) :=
  C5_scan_targets_first_match_only dbScan userTwo (fun _ => true) (Doc.mk "u1" [])
    rfl (by decide) (by decide)

theorem saveLoop_passes_then_error :
    ∀ (db : Registry) (doc : List (String × RefValue)) (l₁ l₂ : List RefField)
      (fo : RefField) (m : ModelDecl),
      (∀ f ∈ l₁, getField doc f.field = RefValue.none ∨
        ∃ mf, resolveModel db f.refTo = Option.some mf ∧
          (TS.validateReference mf (getField doc f.field) f.field).fst = Except.ok true) →
      getField doc fo.field ≠ RefValue.none →
      resolveModel db fo.refTo = Option.some m →
      (TS.validateReference m (getField doc fo.field) fo.field).fst = Except.ok false →
      (saveLoop db doc (l₁ ++ fo :: l₂)).fst =
        Except.error ("Reference validation failed: The value "
          ++ refValueToString (getField doc fo.field) ++ " does not exist within "
          ++ fo.refTo) := by
  intro db doc l₁
  induction l₁ with
  | nil =>
      intro l₂ fo m _h hne hres hval
      simp only [List.nil_append, saveLoop]
      rw [if_neg hne]
      simp only [hres]
      cases hv : TS.validateReference m (getField doc fo.field) fo.field with
      | mk r evs =>
          have hr : r = Except.ok false := by rw [hv] at hval; exact hval
          subst hr
          simp only [hv]
          rw [if_neg (by decide)]
  | cons f1 rest ih =>
      intro l₂ fo m h hne hres hval
      simp only [List.cons_append, saveLoop]
      by_cases hnone : getField doc f1.field = RefValue.none
      · rw [if_pos hnone]
        exact ih l₂ fo m (fun f hf => h f (by simp [hf])) hne hres hval
      · rw [if_neg hnone]
        rcases h f1 (by simp) with h1 | ⟨mf, hmf, hok⟩
        · exact absurd h1 hnone
        · simp only [hmf]
          cases hv : TS.validateReference mf (getField doc f1.field) f1.field with
          | mk r evs =>
              have hr : r = Except.ok true := by rw [hv] at hok; exact hok
              subst hr
              simp only [hv]
              rw [if_pos trivial]
              exact ih l₂ fo m (fun f hf => h f (by simp [hf])) hne hres hval

/-- C6 counterexample: saving a document whose `author` field holds a
dangling identifier is aborted, but the error message does not name the
offending field — it contains only the offending value and the target
collection name. -/
theorem C6_counterexample :
    (saveHook dbUserEmpty schemaAuthor docAuthorX).fst =
      Except.error "Reference validation failed: The value x does not exist within User" ∧
    strContains "Reference validation failed: The value x does not exist within User"
      "author" = false := by
  refine ⟨rfl, by decide⟩

/-- C6 (amended): when a reference field of a document being saved is
invalid, the save is aborted at the first invalid field with an error
naming the offending value and the target collection name (the field
name itself does not appear in the error). -/
theorem C6_save_aborts_at_first_invalid_amended :
    ∀ (db : Registry) (schema : SchemaDesc) (doc : List (String × RefValue))
      (l₁ l₂ : List RefField) (fo : RefField) (m : ModelDecl),
      TS.getRefFields schema = l₁ ++ fo :: l₂ →
      (∀ f ∈ l₁, getField doc f.field = RefValue.none ∨
        ∃ mf, resolveModel db f.refTo = Option.some mf ∧
          (TS.validateReference mf (getField doc f.field) f.field).fst = Except.ok true) →
      getField doc fo.field ≠ RefValue.none →
      resolveModel db fo.refTo = Option.some m →
      (TS.validateReference m (getField doc fo.field) fo.field).fst = Except.ok false →
      (saveHook db schema doc).fst =
        Except.error ("Reference validation failed: The value "
          ++ refValueToString (getField doc fo.field) ++ " does not exist within "
          ++ fo.refTo) := by
  intro db schema doc l₁ l₂ fo m hsch h hne hres hval
  unfold saveHook
  rw [hsch]
  exact saveLoop_passes_then_error db doc l₁ l₂ fo m h hne hres hval

/-- C6 amended, witnessed at the dangling `author → User` save. -/
theorem C6_save_aborts_at_first_invalid_amended_witness :
    (saveHook dbUserEmpty schemaAuthor docAuthorX).fst =
      Except.error ("Reference validation failed: The value "
        ++ refValueToString (getField docAuthorX "author") ++ " does not exist within "
        ++ "User") :=
  C6_save_aborts_at_first_invalid_amended dbUserEmpty schemaAuthor docAuthorX
    [] [] ⟨"author", "User"⟩ userEmpty (by decide) (by simp) (by decide) rfl rfl

theorem validateReference_fst_ok (m : ModelDecl) (v : RefValue) (f : String)
    (h : m.fail = Option.none) :
    (TS.validateReference m v f).fst = Except.ok (refValid m v) := by
  cases v with
  | none => rfl
  | scalar i => simp [TS.validateReference, refValid, h]
  | array ids =>
      by_cases hi : ids.isEmpty
      · simp [TS.validateReference, refValid, hi]
      · simp [TS.validateReference, refValid, hi, h]

theorem validateReference_fst_error (m : ModelDecl) (v : RefValue) (f : String)
    (e : String) (h : (TS.validateReference m v f).fst = Except.error e) :
    ∃ msg, m.fail = Option.some msg ∧ e = dbWrap f msg := by
  cases v with
  | none => exact absurd h (by simp [TS.validateReference])
  | scalar i =>
      cases hf : m.fail with
      | some msg =>
          refine ⟨msg, rfl, ?_⟩
          simp [TS.validateReference, hf] at h
          exact h.symm
      | none => simp [TS.validateReference, hf] at h
  | array ids =>
      by_cases hi : ids.isEmpty
      · simp [TS.validateReference, hi] at h
      · cases hf : m.fail with
        | some msg =>
            refine ⟨msg, rfl, ?_⟩
            simp [TS.validateReference, hi, hf] at h
            exact h.symm
        | none => simp [TS.validateReference, hi, hf] at h

theorem vrLoop_ok (db : Registry) (data : List (String × RefValue)) :
    ∀ l : List RefField,
      (∀ fo ∈ l, ∃ m, resolveModel db fo.refTo = Option.some m ∧ m.fail = Option.none) →
      vrLoop db data l = Except.ok (manualResultsSpec db data l) := by
  intro l
  induction l with
  | nil => intro _; rfl
  | cons fo rest ih =>
      intro h
      rcases h fo (by simp) with ⟨m, hm, hf⟩
      have hrest := ih (fun f hfm => h f (by simp [hfm]))
      by_cases hnone : getField data fo.field = RefValue.none
      · simp [vrLoop, manualResultsSpec, List.filterMap_cons, hnone, hrest]
      · simp [vrLoop, manualResultsSpec, List.filterMap_cons, hnone, hm,
          validateReference_fst_ok m (getField data fo.field) fo.field hf, hrest]

theorem vrLoop_error (db : Registry) (data : List (String × RefValue)) :
    ∀ (l : List RefField) (e : String),
      (∀ fo ∈ l, (resolveModel db fo.refTo).isSome) →
      vrLoop db data l = Except.error e →
      ∃ fo ∈ l, ∃ m msg, resolveModel db fo.refTo = Option.some m ∧
        m.fail = Option.some msg ∧ e = dbWrap fo.field msg := by
  intro l
  induction l with
  | nil => intro e _ he; exact absurd he (by simp [vrLoop])
  | cons fo rest ih =>
      intro e hres he
      unfold vrLoop at he
      by_cases hnone : getField data fo.field = RefValue.none
      · rw [if_pos hnone] at he
        rcases ih e (fun f hf => hres f (by simp [hf])) he with ⟨f, hf, m, msg, h1, h2, h3⟩
        exact ⟨f, by simp [hf], m, msg, h1, h2, h3⟩
      · rw [if_neg hnone] at he
        rcases Option.isSome_iff_exists.mp (hres fo (by simp)) with ⟨m, hm⟩
        simp only [hm] at he
        cases hvr : (TS.validateReference m (getField data fo.field) fo.field).fst with
        | error e2 =>
            simp only [hvr] at he
            rcases validateReference_fst_error m (getField data fo.field) fo.field e2 hvr
              with ⟨msg, hmsg, he2⟩
            refine ⟨fo, by simp, m, msg, hm, hmsg, ?_⟩
            have hee : e2 = e := by injection he
            rw [← hee]
            exact he2
        | ok isValid =>
            simp only [hvr] at he
            cases hrest : vrLoop db data rest with
            | error e2 =>
                simp only [hrest] at he
                have hee : e2 = e := by injection he
                subst hee
                rcases ih e2 (fun f hf => hres f (by simp [hf])) hrest
                  with ⟨f, hf, m2, msg, h1, h2, h3⟩
                exact ⟨f, by simp [hf], m2, msg, h1, h2, h3⟩
            | ok results =>
                rw [hrest] at he
                simp at he

theorem vrLoop_eq_crLoop (db : Registry) (data doc : List (String × RefValue)) :
    ∀ l : List RefField,
      (∀ fo ∈ l, getField data fo.field = getField doc fo.field) →
      vrLoop db data l = crLoop db doc l := by
  intro l
  induction l with
  | nil => intro _; rfl
  | cons fo rest ih =>
      intro h
      have hf := h fo (by simp)
      have hrest := ih (fun f hfm => h f (by simp [hfm]))
      simp only [vrLoop, crLoop]
      rw [hf, hrest]

/-- C7: the Manual Validation API — both the collection-level
`validateReferences` and the instance-level `checkReferences` — never
aborts: whenever every reference target resolves to a healthy collection,
each returns `ok` with exactly one ValidationResult per reference field
whose value is present (absent values are skipped and produce no entry),
and a non-resolving reference shows up as `isValid = false` rather than
as an error; for either entry point, the only errors that ever propagate
out are database errors wrapped from a failing underlying lookup. -/
theorem C7_manual_api_never_aborts :
    (∀ (db : Registry) (schema : SchemaDesc) (data : List (String × RefValue)),
      (∀ fo ∈ TS.getRefFields schema,
        ∃ m, resolveModel db fo.refTo = Option.some m ∧ m.fail = Option.none) →
      validateReferences db schema data =
        Except.ok (manualResultsSpec db data (TS.getRefFields schema))) ∧
    (∀ (db : Registry) (schema : SchemaDesc) (doc : List (String × RefValue)),
      (∀ fo ∈ TS.getRefFields schema,
        ∃ m, resolveModel db fo.refTo = Option.some m ∧ m.fail = Option.none) →
      checkReferences db schema doc =
        Except.ok (manualResultsSpec db doc (TS.getRefFields schema))) ∧
    (∀ (db : Registry) (schema : SchemaDesc) (data : List (String × RefValue)) (e : String),
      (∀ fo ∈ TS.getRefFields schema, (resolveModel db fo.refTo).isSome) →
      validateReferences db schema data = Except.error e →
      ∃ fo ∈ TS.getRefFields schema, ∃ m msg,
        resolveModel db fo.refTo = Option.some m ∧ m.fail = Option.some msg ∧
        e = dbWrap fo.field msg) ∧
    (∀ (db : Registry) (schema : SchemaDesc) (doc : List (String × RefValue)) (e : String),
      (∀ fo ∈ TS.getRefFields schema, (resolveModel db fo.refTo).isSome) →
      checkReferences db schema doc = Except.error e →
      ∃ fo ∈ TS.getRefFields schema, ∃ m msg,
        resolveModel db fo.refTo = Option.some m ∧ m.fail = Option.some msg ∧
        e = dbWrap fo.field msg) := by
  refine ⟨?_, ?_, ?_, ?_⟩
  · intro db schema data h
    exact vrLoop_ok db data (TS.getRefFields schema) h
  · intro db schema doc h
    unfold checkReferences
    rw [← vrLoop_eq_crLoop db doc doc (TS.getRefFields schema) (fun _ _ => rfl)]
    exact vrLoop_ok db doc (TS.getRefFields schema) h
  · intro db schema data e h he
    exact vrLoop_error db data (TS.getRefFields schema) e h he
  · intro db schema doc e h he
    apply vrLoop_error db doc (TS.getRefFields schema) e h
    rw [vrLoop_eq_crLoop db doc doc (TS.getRefFields schema) (fun _ _ => rfl)]
    exact he

/-- C7, witnessed: with User = {u1}, both entry points applied to the
`author = u1` data and document instance return the single valid result
and do not abort. -/
theorem C7_manual_api_never_aborts_witness :
    validateReferences [userU1] schemaAuthor [("author", RefValue.scalar "u1")] =
      Except.ok (manualResultsSpec [userU1] [("author", RefValue.scalar "u1")]
        (TS.getRefFields schemaAuthor)) ∧
    checkReferences [userU1] schemaAuthor [("author", RefValue.scalar "u1")] =
      Except.ok (manualResultsSpec [userU1] [("author", RefValue.scalar "u1")]
        (TS.getRefFields schemaAuthor)) := by
  have hres : ∀ fo ∈ TS.getRefFields schemaAuthor,
      ∃ m, resolveModel [userU1] fo.refTo = Option.some m ∧ m.fail = Option.none := by
    intro fo hfo
    have h2 : TS.getRefFields schemaAuthor = [⟨"author", "User"⟩] := by decide
    rw [h2] at hfo
    simp only [List.mem_singleton] at hfo
    subst hfo
    exact ⟨userU1, rfl, rfl⟩
  exact ⟨C7_manual_api_never_aborts.1 [userU1] schemaAuthor
      [("author", RefValue.scalar "u1")] hres,
    C7_manual_api_never_aborts.2.1 [userU1] schemaAuthor
      [("author", RefValue.scalar "u1")] hres⟩

/-- C8: a disabled Configuration flag means the corresponding hooks are
not installed at all, so the corresponding operation proceeds with no
validation and no I/O; in particular with `enableDelete = false` every
delete — even of a document still referenced by a living document —
succeeds unconditionally with an empty I/O trace. -/
theorem C8_disabled_flag_no_hook :
    ∀ c : Config,
      (c.enableSave = false →
        HookKind.save ∉ installedHooks c ∧
        ∀ (db : Registry) (schema : SchemaDesc) (doc : List (String × RefValue)),
          runSave c db schema doc = (Except.ok (), [])) ∧
      (c.enableUpdate = false →
        (HookKind.findOneAndUpdate ∉ installedHooks c ∧
         HookKind.updateOne ∉ installedHooks c ∧
         HookKind.updateMany ∉ installedHooks c) ∧
        ∀ (db : Registry) (schema : SchemaDesc) (payload : List (String × PayloadValue)),
          runUpdate c db schema payload = (Except.ok (), [])) ∧
      (c.enableDelete = false →
        (HookKind.deleteOne ∉ installedHooks c ∧
         HookKind.findOneAndDelete ∉ installedHooks c ∧
         HookKind.deleteMany ∉ installedHooks c) ∧
        ∀ (db : Registry) (deleting : ModelDecl) (query : OID → Bool),
          runDelete c db deleting query = (Except.ok (), [])) := by
  intro c
  refine ⟨?_, ?_, ?_⟩
  · intro h
    have hns : HookKind.save ∉ installedHooks c := by
      cases hu : c.enableUpdate <;> cases hd : c.enableDelete <;>
        simp [installedHooks, h, hu, hd]
    refine ⟨hns, ?_⟩
    intro db schema doc
    unfold runSave
    rw [if_neg hns]
  · intro h
    have hns : HookKind.findOneAndUpdate ∉ installedHooks c ∧
        HookKind.updateOne ∉ installedHooks c ∧
        HookKind.updateMany ∉ installedHooks c := by
      cases hs : c.enableSave <;> cases hd : c.enableDelete <;>
        simp [installedHooks, h, hs, hd]
    refine ⟨hns, ?_⟩
    intro db schema payload
    unfold runUpdate
    rw [if_neg hns.2.1]
  · intro h
    have hns : HookKind.deleteOne ∉ installedHooks c ∧
        HookKind.findOneAndDelete ∉ installedHooks c ∧
        HookKind.deleteMany ∉ installedHooks c := by
      cases hs : c.enableSave <;> cases hu : c.enableUpdate <;>
        simp [installedHooks, h, hs, hu]
    refine ⟨hns, ?_⟩
    intro db deleting query
    unfold runDelete
    rw [if_neg hns.1]

/-- C8, witnessed: with delete disabled, deleting the still-referenced
user u1 performs no I/O and succeeds, although the enabled delete hook
would have aborted on the living reference in Post. -/
theorem C8_disabled_flag_no_hook_witness :
    (HookKind.deleteOne ∉ installedHooks (mergeOptions optsNoDelete)) ∧
    runDelete (mergeOptions optsNoDelete) dbScan userTwo (fun _ => true) =
      (Except.ok (), []) := by
  have h := (C8_disabled_flag_no_hook (mergeOptions optsNoDelete)).2.2 rfl
  exact ⟨h.1.1, h.2 dbScan userTwo (fun _ => true)⟩

theorem updateLoop_no_toplevel_keys (db : Registry)
    (payload : List (String × PayloadValue)) :
    ∀ l : List RefField,
      (∀ fo ∈ l, lookupPayload payload fo.field = Option.none) →
      updateLoop db payload l = (Except.ok (), []) := by
  intro l
  induction l with
  | nil => intro _; rfl
  | cons fo rest ih =>
      intro h
      have hfo := h fo (by simp)
      simp only [updateLoop, hfo]
      exact ih (fun f hf => h f (by simp [hf]))

/-- C9: the update hook reads reference values only from the top-level
keys of the update payload: whenever no reference field of the schema
occurs as a top-level payload key — in particular when all assignments
sit under update-operator keys such as `$set` — the hook performs no
lookup at all and lets the update proceed. -/
theorem C9_update_reads_only_toplevel_keys :
    ∀ (db : Registry) (schema : SchemaDesc) (payload : List (String × PayloadValue)),
      (∀ fo ∈ TS.getRefFields schema, lookupPayload payload fo.field = Option.none) →
      updateHook db schema payload = (Except.ok (), []) := by
  intro db schema payload h
  exact updateLoop_no_toplevel_keys db payload (TS.getRefFields schema) h

/-- C9, witnessed: a payload assigning a non-existent `author` only under
`$set` triggers no lookup and the update proceeds. -/
theorem C9_update_reads_only_toplevel_keys_witness :
    updateHook dbUserEmpty schemaAuthor payloadSetOnly = (Except.ok (), []) :=
  C9_update_reads_only_toplevel_keys dbUserEmpty schemaAuthor payloadSetOnly (by decide)

/-- C10: the collection-level `validateReferences` and the instance-level
`checkReferences` agree — whenever the supplied data reads back the same
value as the document instance on every reference field of the schema,
and against the same registry, they return identical ValidationResult
sequences, in the schema's extraction order. -/
theorem C10_static_and_instance_agree :
    ∀ (db : Registry) (schema : SchemaDesc) (data doc : List (String × RefValue)),
      (∀ fo ∈ TS.getRefFields schema, getField data fo.field = getField doc fo.field) →
      validateReferences db schema data = checkReferences db schema doc := by
  intro db schema data doc h
  exact vrLoop_eq_crLoop db data doc (TS.getRefFields schema) h

/-- C10, witnessed on a document whose `author` is u1. -/
theorem C10_static_and_instance_agree_witness :
    validateReferences [userU1] schemaAuthor [("author", RefValue.scalar "u1")] =
      checkReferences [userU1] schemaAuthor [("author", RefValue.scalar "u1")] :=
  C10_static_and_instance_agree [userU1] schemaAuthor
    [("author", RefValue.scalar "u1")] [("author", RefValue.scalar "u1")]
    (fun _ _ => rfl)
